import Mathlib

/-!
# Skyline org-compare core: shallow embedding and verification

This file embeds the comparison, line-diff, dependency auto-wiring and
manifest-serialization core of the Skyline repository and proves or refutes
the specification's claims about it.

The repository contains two parallel implementations of the core:

* the LWC component `orgCompare.ts` (embedded below in namespace `OrgCompare`);
* the service layer `metadataService.ts` (namespace `MetadataService`).

The two copies share the reconciliation, auto-wiring and manifest code
verbatim, but differ in two places that matter to the claims:

* `hasChanges`: the component compares the items' content fields
  (`source.sourceValue !== target.sourceValue`), while the service compares
  `sourceItem.lastModifiedDate !== targetItem.lastModifiedDate`;
* `generateDiffContent`: the component marks a line present only on the
  source side as `added` and a line present only on the target side as
  `removed`, while the service uses the opposite orientation.

Modelling conventions:

* JS `undefined`-able string fields become `Option String`; JS string
  truthiness (`if (s)`) is `s ≠ ""`, and `s || ''` on an optional field is
  `Option.getD s ""`.
* The mutation of `item.status` / `item.statusBadgeClass` performed while an
  item is pushed into a partition is represented by partition membership
  itself; the UI-only fields (`status`, `statusBadgeClass`, `selected`,
  `diff`, `lastModified`, `diffLineClass`) are omitted from the record.
* A JS `Map<string, T>` built by repeated `set` calls is modelled by its
  observable lookup function (`lookupMap`, last `set` wins) or, where the
  code also iterates the map in key-insertion order (`generatePackageXml`),
  by an insertion-ordered association list (`groupTypes`).
* A JS `Set<MetadataItem>` (object identity) is modelled as a duplicate-free
  insertion-ordered list over the item record with value equality, following
  the spec's own portability note that identity-based membership is to be
  realised by explicit keyed membership.
-/

/-- Classification tags used both for items and for diff lines
(`'added' | 'removed' | 'changed' | 'unchanged'`). -/
inductive DiffType where
  | added
  | removed
  | changed
  | unchanged
deriving DecidableEq

/-- The `MetadataItem` interface of `orgCompare.ts` (fields relevant to the
core computation; see the modelling conventions above for the omitted
UI-state fields). -/
structure MetadataItem where
  type : String
  name : String
  fullName : String
  lastModifiedDate : Option String := none
  lastModifiedBy : Option String := none
  sourceValue : Option String := none
  targetValue : Option String := none
deriving DecidableEq

/-- The `MetadataComparison` interface: the four partitions returned by
`compareMetadata`. -/
structure MetadataComparison where
  added : List MetadataItem
  removed : List MetadataItem
  changed : List MetadataItem
  unchanged : List MetadataItem
deriving DecidableEq

/-- The key-indexed lookup built by
`source.forEach(item => sourceMap.set(item.fullName, item))`:
`Map.set` overwrites, so the last item with a given `fullName` wins. -/
def lookupMap (l : List MetadataItem) (k : String) : Option MetadataItem :=
  l.foldl (fun acc i => if i.fullName = k then some i else acc) none

/-- The body of `compareMetadata`, parameterized by the `hasChanges`
predicate (the only point where the two copies of the code differ).
The three `forEach` loops of the source produce exactly these filtered
lists, in input order:
* `added`: source items whose key is absent from the target map;
* `removed`: target items whose key is absent from the source map;
* `changed` / `unchanged`: source items present in both, split by
  `hasChanges(sourceItem, targetMap.get(sourceItem.fullName))`. -/
def compareWith (hc : MetadataItem → MetadataItem → Bool)
    (source target : List MetadataItem) : MetadataComparison :=
  { added := source.filter (fun i => (lookupMap target i.fullName).isNone)
    removed := target.filter (fun i => (lookupMap source i.fullName).isNone)
    changed := source.filter (fun i =>
      match lookupMap target i.fullName with
      | some t => hc i t
      | none => false)
    unchanged := source.filter (fun i =>
      match lookupMap target i.fullName with
      | some t => !hc i t
      | none => false) }

namespace OrgCompare

/-- `orgCompare.ts` `hasChanges`: `source.sourceValue !== target.sourceValue`
(each item carries the content retrieved from its own side in
`sourceValue`). -/
def hasChanges (source target : MetadataItem) : Bool :=
  source.sourceValue != target.sourceValue

/-- `orgCompare.ts` `compareMetadata(source, target)`. -/
def compareMetadata (source target : List MetadataItem) : MetadataComparison :=
  compareWith hasChanges source target

end OrgCompare

namespace MetadataService

/-- `metadataService.ts` `hasChanges`: compares `lastModifiedDate`, with the
source comment "Simple comparison - in real implementation, this would
compare actual content". -/
def hasChanges (sourceItem targetItem : MetadataItem) : Bool :=
  sourceItem.lastModifiedDate != targetItem.lastModifiedDate

/-- `metadataService.ts` `compareMetadata(source, target)`. -/
def compareMetadata (source target : List MetadataItem) : MetadataComparison :=
  compareWith hasChanges source target

end MetadataService

/-- One row of the diff view. The component builds two index-aligned arrays
(`sourceDiffLines`, `targetDiffLines`) that share `lineNumber` and `type`;
the service builds one array of `DiffLine` records carrying both contents.
Both are represented by this merged record. -/
structure DiffLine where
  lineNumber : Nat
  sourceContent : String
  targetContent : String
  type : DiffType
deriving DecidableEq

/-- JS `s.split(sep)` for a single-character separator (the code splits only
on `'\n'` and `'.'`): `"".split(sep)` is `[""]`, and a trailing separator
yields a final empty piece. -/
def jsSplit (sep : Char) (s : String) : List String :=
  s.data.foldr
    (fun c acc =>
      if c = sep then "" :: acc
      else
        match acc with
        | [] => [String.mk [c]]
        | h :: t => String.mk (c :: h.data) :: t)
    [""]

/-- JS `content.split('\n')`. -/
def splitLines (s : String) : List String := jsSplit '\n' s

/-- JS string truthiness guard used by both diff implementations:
a string is truthy iff it is non-empty. -/
def strTruthy (s : String) : Bool := s ≠ ""

namespace OrgCompare

/-- Per-index classification of `orgCompare.ts` `generateDiffContent`:
initialized to `unchanged`; when the lines differ,
`sourceLine && !targetLine` gives `added`, `!sourceLine && targetLine`
gives `removed`, anything else `changed`. -/
def diffLineType (sourceLine targetLine : String) : DiffType :=
  if sourceLine = targetLine then .unchanged
  else if strTruthy sourceLine && !strTruthy targetLine then .added
  else if !strTruthy sourceLine && strTruthy targetLine then .removed
  else .changed

/-- The pure core of `orgCompare.ts` `generateDiffContent`: takes the
selected item's `sourceValue`/`targetValue` (defaulted to `''`), splits on
newline, and walks index `0 .. maxLines-1`, padding missing lines with `''`
(`sourceLines[i] || ''`). -/
def generateDiffContent (sourceValue targetValue : Option String) : List DiffLine :=
  let sourceLines := splitLines (sourceValue.getD "")
  let targetLines := splitLines (targetValue.getD "")
  let maxLines := max sourceLines.length targetLines.length
  (List.range maxLines).map (fun i =>
    let sourceLine := sourceLines.getD i ""
    let targetLine := targetLines.getD i ""
    { lineNumber := i + 1
      sourceContent := sourceLine
      targetContent := targetLine
      type := diffLineType sourceLine targetLine })

end OrgCompare

namespace MetadataService

/-- Per-index classification of `metadataService.ts` `generateDiffContent`:
same structure as the component's, but with the opposite orientation —
`sourceLine && !targetLine` gives `removed`, `!sourceLine && targetLine`
gives `added`. -/
def diffLineType (sourceLine targetLine : String) : DiffType :=
  if sourceLine = targetLine then .unchanged
  else if strTruthy sourceLine && !strTruthy targetLine then .removed
  else if !strTruthy sourceLine && strTruthy targetLine then .added
  else .changed

/-- The pure core of `metadataService.ts` `generateDiffContent`. -/
def generateDiffContent (sourceValue targetValue : Option String) : List DiffLine :=
  let sourceLines := splitLines (sourceValue.getD "")
  let targetLines := splitLines (targetValue.getD "")
  let maxLines := max sourceLines.length targetLines.length
  (List.range maxLines).map (fun i =>
    let sourceLine := sourceLines.getD i ""
    let targetLine := targetLines.getD i ""
    { lineNumber := i + 1
      sourceContent := sourceLine
      targetContent := targetLine
      type := diffLineType sourceLine targetLine })

end MetadataService

/-- `metadataConfig.ts` `autoWire` values
(`'lwcFolder' | 'apexMeta' | 'objectFields' | 'objectLayouts' | 'fieldParentObject'`). -/
inductive AutoWireKind where
  | lwcFolder
  | apexMeta
  | objectFields
  | objectLayouts
  | fieldParentObject
deriving DecidableEq

/-- `metadataConfig.ts` `MetadataTypeConfig`; `autoWire : none` covers both
an absent `autoWire` field and an explicit `null`. -/
structure MetadataTypeConfig where
  type : String
  displayName : String
  icon : Option String := none
  autoWire : Option AutoWireKind := none
deriving DecidableEq

/-- `metadataConfig.ts` `METADATA_TYPES`. -/
def METADATA_TYPES : List MetadataTypeConfig :=
  [ { type := "ApexClass", displayName := "Apex Class",
      icon := some "utility:code", autoWire := some .apexMeta }
  , { type := "ApexTrigger", displayName := "Apex Trigger",
      icon := some "utility:code", autoWire := some .apexMeta }
  , { type := "ApexPage", displayName := "Visualforce Page",
      icon := some "utility:page", autoWire := some .apexMeta }
  , { type := "ApexComponent", displayName := "Apex Component",
      icon := some "utility:component", autoWire := some .apexMeta }
  , { type := "CustomObject", displayName := "Custom Object",
      icon := some "standard:custom_object", autoWire := some .objectFields }
  , { type := "CustomField", displayName := "Custom Field",
      icon := some "standard:custom_object", autoWire := some .fieldParentObject }
  , { type := "Layout", displayName := "Layout",
      icon := some "utility:layout", autoWire := some .objectLayouts }
  , { type := "LightningComponentBundle", displayName := "LWC",
      icon := some "utility:lightning", autoWire := some .lwcFolder }
  , { type := "Profile", displayName := "Profile",
      icon := some "standard:profile", autoWire := none }
  , { type := "PermissionSet", displayName := "Permission Set",
      icon := some "standard:avatar", autoWire := none } ]

/-- The flattened universe used by every auto-wire case:
`[...added, ...removed, ...changed, ...unchanged]`. -/
def allItems (c : MetadataComparison) : List MetadataItem :=
  c.added ++ c.removed ++ c.changed ++ c.unchanged

/-- `autoWiredItems.add(item)` on the insertion-ordered set. -/
def insertItem (s : List MetadataItem) (i : MetadataItem) : List MetadataItem :=
  if i ∈ s then s else s ++ [i]

/-- JS `name.startsWith(pre)`. -/
def strStartsWith (s pre : String) : Bool :=
  pre.data.isPrefixOf s.data

/-- The rule resolution of `autoWireDependencies`:
`METADATA_TYPES.find(t => t.type === item.type)` followed by the
`!typeConfig || !typeConfig.autoWire` guard. -/
def lookupAutoWire (rules : List MetadataTypeConfig) (ty : String) : Option AutoWireKind :=
  (rules.find? (fun t => t.type == ty)).bind (fun t => t.autoWire)

/-- The candidates one `switch` case of `autoWireDependencies` (identical in
both copies of the code) pulls from the flattened universe for one item, in
universe order. `objectLayouts` has no `switch` case in the source and
therefore contributes nothing; the single-candidate cases (`apexMeta`,
`fieldParentObject`) contribute the `find` result when present. -/
def autoWireCandidates (univ : MetadataComparison) (rules : List MetadataTypeConfig)
    (item : MetadataItem) : List MetadataItem :=
  match lookupAutoWire rules item.type with
  | none => []
  | some .objectLayouts => []
  | some .lwcFolder =>
      (allItems univ).filter (fun i =>
        i.type == "LightningComponentBundle" &&
        strStartsWith i.name (item.name ++ "/"))
  | some .apexMeta =>
      match (allItems univ).find? (fun i =>
        i.type == item.type && i.name == item.name ++ "-meta") with
      | some metaItem => [metaItem]
      | none => []
  | some .objectFields =>
      (allItems univ).filter (fun i =>
        (i.type == "CustomField" || i.type == "Layout") &&
        strStartsWith i.name (item.name ++ "."))
  | some .fieldParentObject =>
      let fieldNameParts := jsSplit '.' item.name
      if fieldNameParts.length > 1 then
        match (allItems univ).find? (fun i =>
          i.type == "CustomObject" && i.name == fieldNameParts.headD "") with
        | some parentObject => [parentObject]
        | none => []
      else []

/-- One iteration of the `selectedItems.forEach` loop of
`autoWireDependencies`: `autoWiredItems.add(item)` followed by a set-insert
of each candidate of the item's `switch` case, in order. -/
def autoWireStep (univ : MetadataComparison) (rules : List MetadataTypeConfig)
    (acc : List MetadataItem) (item : MetadataItem) : List MetadataItem :=
  (autoWireCandidates univ rules item).foldl insertItem (insertItem acc item)

/-- `autoWireDependencies(selectedItems)` (identical in both copies): a
single `forEach` pass over the seed items, accumulating into the
insertion-ordered set, returned as `Array.from(autoWiredItems)`. The
comparison-result universe and the rule table (globals in the source) are
explicit parameters here. -/
def autoWireDependencies (selectedItems : List MetadataItem)
    (univ : MetadataComparison) (rules : List MetadataTypeConfig) :
    List MetadataItem :=
  selectedItems.foldl (autoWireStep univ rules) []

/-- The `Map<string, string[]>` built by `generatePackageXml` (identical in
both copies of the code): for each item, create an empty entry for its type
on first sight, then push its name. Modelled as an insertion-ordered
association list, since the serializer iterates the map in key-insertion
order. Duplicate names are pushed again, not collapsed. -/
def groupStep (m : List (String × List String)) (item : MetadataItem) :
    List (String × List String) :=
  if m.any (fun p => p.1 == item.type) then
    m.map (fun p => if p.1 == item.type then (p.1, p.2 ++ [item.name]) else p)
  else
    m ++ [(item.type, [item.name])]

def groupTypes (items : List MetadataItem) : List (String × List String) :=
  items.foldl groupStep []

/-- Serialization of one `types` block per map entry, in map order:
members first (in push order), then the type name. -/
def renderTypes (groups : List (String × List String)) : String :=
  groups.foldl
    (fun acc p =>
      acc ++ "  <types>\n"
        ++ p.2.foldl (fun a n => a ++ "    <members>" ++ n ++ "</members>\n") ""
        ++ "    <name>" ++ p.1 ++ "</name>\n"
        ++ "  </types>\n")
    ""

/-- The fixed first two lines emitted by `generatePackageXml`. -/
def packageXmlHeader : String :=
  "<?xml version=\"1.0\" encoding=\"UTF-8\"?>\n<Package xmlns=\"http://soap.sforce.com/2006/04/metadata\">\n"

/-- The fixed trailing version marker and closing tag. -/
def packageXmlFooter : String :=
  "  <version>58.0</version>\n</Package>"

/-- `generatePackageXml(items)` (identical in both copies of the code):
group by `item.type` in first-seen order, then emit the envelope around one
`types` block per group. -/
def generatePackageXml (items : List MetadataItem) : String :=
  packageXmlHeader ++ renderTypes (groupTypes items) ++ packageXmlFooter

/-- Observation helper: the member list recorded for a type key (first
matching entry, as `Map.get` would return). -/
def lookupGroup : List (String × List String) → String → List String
  | [], _ => []
  | p :: rest, t => if p.1 = t then p.2 else lookupGroup rest t

/-! ## Helper lemmas about the reconciler -/

theorem foldl_lookup_isSome (l : List MetadataItem) (k : String) :
    ∀ acc : Option MetadataItem,
      (l.foldl (fun acc i => if i.fullName = k then some i else acc) acc).isSome
        = (acc.isSome || l.any (fun i => i.fullName == k)) := by
  induction l with
  | nil => simp
  | cons i t ih =>
    intro acc
    rw [List.foldl_cons, ih]
    by_cases h : i.fullName = k
    · have hb : (i.fullName == k) = true := by simp [h]
      simp [h, hb]
    · have hb : (i.fullName == k) = false := by simp [h]
      simp [h, hb]

theorem lookupMap_isSome_iff (l : List MetadataItem) (k : String) :
    (lookupMap l k).isSome = true ↔ k ∈ l.map (fun i => i.fullName) := by
  unfold lookupMap
  rw [foldl_lookup_isSome]
  simp only [Option.isSome_none, Bool.false_or, List.any_eq_true, List.mem_map,
    beq_iff_eq]

theorem lookupMap_eq_none_iff (l : List MetadataItem) (k : String) :
    lookupMap l k = none ↔ k ∉ l.map (fun i => i.fullName) := by
  rw [← lookupMap_isSome_iff]
  cases lookupMap l k <;> simp

theorem length_filter_three {α : Type} (l : List α) (p q r : α → Bool)
    (h : ∀ a, (p a).toNat + (q a).toNat + (r a).toNat = 1) :
    (l.filter p).length + (l.filter q).length + (l.filter r).length = l.length := by
  induction l with
  | nil => simp
  | cons a t ih =>
    have ha := h a
    by_cases hp : p a <;> by_cases hq : q a <;> by_cases hr : r a <;>
      simp [hp, hq, hr] at ha ⊢ <;> omega

/-- Every source item lands in exactly one of added/changed/unchanged,
independently of the change predicate and of any key-uniqueness
precondition. -/
theorem compareWith_source_length (hc : MetadataItem → MetadataItem → Bool)
    (source target : List MetadataItem) :
    (compareWith hc source target).added.length
      + (compareWith hc source target).changed.length
      + (compareWith hc source target).unchanged.length
      = source.length := by
  apply length_filter_three
  intro i
  cases h : lookupMap target i.fullName with
  | none => simp
  | some t0 => cases hcv : hc i t0 <;> simp [hcv]

/-- Observation helper: some artifact in `l` has key `k`. -/
def keyIn (l : List MetadataItem) (k : String) : Bool :=
  l.any (fun i => i.fullName == k)

/-- In how many of the four partitions does key `k` occur. -/
def keyCount (c : MetadataComparison) (k : String) : Nat :=
  (keyIn c.added k).toNat + (keyIn c.removed k).toNat
    + (keyIn c.changed k).toNat + (keyIn c.unchanged k).toNat

theorem keyIn_iff (l : List MetadataItem) (k : String) :
    keyIn l k = true ↔ k ∈ l.map (fun i => i.fullName) := by
  simp [keyIn, List.any_eq_true, List.mem_map, beq_iff_eq]

theorem keyIn_filter_iff (l : List MetadataItem) (p : MetadataItem → Bool) (k : String) :
    keyIn (l.filter p) k = true ↔ ∃ i ∈ l, i.fullName = k ∧ p i = true := by
  simp only [keyIn, List.any_eq_true, List.mem_filter, beq_iff_eq]
  constructor
  · rintro ⟨i, ⟨hi, hp⟩, hk⟩
    exact ⟨i, hi, hk, hp⟩
  · rintro ⟨i, hi, hk, hp⟩
    exact ⟨i, ⟨hi, hp⟩, hk⟩

theorem map_key_filter (l : List MetadataItem) (p : String → Bool) :
    (l.filter (fun i => p i.fullName)).map (fun i => i.fullName)
      = (l.map (fun i => i.fullName)).filter p := by
  induction l with
  | nil => simp
  | cons i t ih => by_cases h : p i.fullName <;> simp [h, ih]

theorem bool_eq_false {b : Bool} (h : ¬ b = true) : b = false := by
  cases b
  · rfl
  · exact absurd rfl h

theorem keyIn_added_iff (hc : MetadataItem → MetadataItem → Bool)
    (source target : List MetadataItem) (k : String) :
    keyIn (compareWith hc source target).added k = true
      ↔ k ∈ source.map (fun i => i.fullName) ∧ lookupMap target k = none := by
  show keyIn (source.filter _) k = true ↔ _
  rw [keyIn_filter_iff]
  constructor
  · rintro ⟨i, hi, hik, hp⟩
    subst hik
    exact ⟨List.mem_map.mpr ⟨i, hi, rfl⟩,
      Option.isNone_iff_eq_none.mp hp⟩
  · rintro ⟨hmem, hnone⟩
    obtain ⟨i, hi, hik⟩ := List.mem_map.mp hmem
    refine ⟨i, hi, hik, ?_⟩
    rw [hik, hnone]
    rfl

theorem keyIn_removed_iff (hc : MetadataItem → MetadataItem → Bool)
    (source target : List MetadataItem) (k : String) :
    keyIn (compareWith hc source target).removed k = true
      ↔ k ∈ target.map (fun i => i.fullName) ∧ lookupMap source k = none := by
  show keyIn (target.filter _) k = true ↔ _
  rw [keyIn_filter_iff]
  constructor
  · rintro ⟨i, hi, hik, hp⟩
    subst hik
    exact ⟨List.mem_map.mpr ⟨i, hi, rfl⟩,
      Option.isNone_iff_eq_none.mp hp⟩
  · rintro ⟨hmem, hnone⟩
    obtain ⟨i, hi, hik⟩ := List.mem_map.mp hmem
    refine ⟨i, hi, hik, ?_⟩
    rw [hik, hnone]
    rfl

theorem keyIn_changed_iff (hc : MetadataItem → MetadataItem → Bool)
    (source target : List MetadataItem) (k : String) :
    keyIn (compareWith hc source target).changed k = true
      ↔ ∃ i ∈ source, i.fullName = k ∧ ∃ t0,
          lookupMap target k = some t0 ∧ hc i t0 = true := by
  show keyIn (source.filter _) k = true ↔ _
  rw [keyIn_filter_iff]
  constructor
  · rintro ⟨i, hi, hik, hp⟩
    subst hik
    cases h : lookupMap target i.fullName with
    | none => rw [h] at hp; exact absurd hp (by simp)
    | some t0 =>
      rw [h] at hp
      exact ⟨i, hi, rfl, t0, rfl, hp⟩
  · rintro ⟨i, hi, hik, t0, hl, hv⟩
    refine ⟨i, hi, hik, ?_⟩
    rw [hik, hl]
    exact hv

theorem keyIn_unchanged_iff (hc : MetadataItem → MetadataItem → Bool)
    (source target : List MetadataItem) (k : String) :
    keyIn (compareWith hc source target).unchanged k = true
      ↔ ∃ i ∈ source, i.fullName = k ∧ ∃ t0,
          lookupMap target k = some t0 ∧ hc i t0 = false := by
  show keyIn (source.filter _) k = true ↔ _
  rw [keyIn_filter_iff]
  constructor
  · rintro ⟨i, hi, hik, hp⟩
    subst hik
    cases h : lookupMap target i.fullName with
    | none => rw [h] at hp; exact absurd hp (by simp)
    | some t0 =>
      rw [h] at hp
      exact ⟨i, hi, rfl, t0, rfl, by simpa using hp⟩
  · rintro ⟨i, hi, hik, t0, hl, hv⟩
    refine ⟨i, hi, hik, ?_⟩
    rw [hik, hl]
    simpa using hv

/-- Exactly one of the four partitions contains a given key of the union,
provided the source side has unique keys (the target side needs none for
this part). -/
theorem compareWith_keyCount (hc : MetadataItem → MetadataItem → Bool)
    (source target : List MetadataItem)
    (hs : (source.map (fun i => i.fullName)).Nodup)
    (k : String)
    (hk : k ∈ source.map (fun i => i.fullName)
        ∨ k ∈ target.map (fun i => i.fullName)) :
    keyCount (compareWith hc source target) k = 1 := by
  by_cases hksrc : k ∈ source.map (fun i => i.fullName)
  · by_cases hkt : k ∈ target.map (fun i => i.fullName)
    · obtain ⟨t0, ht0⟩ : ∃ t0, lookupMap target k = some t0 := by
        have hso := (lookupMap_isSome_iff target k).mpr hkt
        cases h : lookupMap target k with
        | none => rw [h] at hso; exact absurd hso (by simp)
        | some t0 => exact ⟨t0, rfl⟩
      obtain ⟨i0, hi0, hik0⟩ := List.mem_map.mp hksrc
      have hadded : keyIn (compareWith hc source target).added k = false := by
        apply bool_eq_false
        intro hcon
        obtain ⟨-, hnone⟩ := (keyIn_added_iff hc source target k).mp hcon
        rw [ht0] at hnone
        exact Option.noConfusion hnone
      have hremoved : keyIn (compareWith hc source target).removed k = false := by
        apply bool_eq_false
        intro hcon
        obtain ⟨-, hnone⟩ := (keyIn_removed_iff hc source target k).mp hcon
        exact (lookupMap_eq_none_iff source k).mp hnone hksrc
      cases hcv : hc i0 t0 with
      | true =>
        have hchanged : keyIn (compareWith hc source target).changed k = true :=
          (keyIn_changed_iff hc source target k).mpr ⟨i0, hi0, hik0, t0, ht0, hcv⟩
        have hunchanged : keyIn (compareWith hc source target).unchanged k = false := by
          apply bool_eq_false
          intro hcon
          obtain ⟨j, hj, hjk, t1, ht1, hv⟩ :=
            (keyIn_unchanged_iff hc source target k).mp hcon
          have ht01 : t1 = t0 := by rw [ht0] at ht1; exact (Option.some.inj ht1).symm
          have hji : j = i0 :=
            List.inj_on_of_nodup_map hs hj hi0 (by rw [hjk, hik0])
          rw [hji, ht01] at hv
          rw [hcv] at hv
          exact Bool.noConfusion hv
        simp [keyCount, hadded, hremoved, hchanged, hunchanged]
      | false =>
        have hunchanged : keyIn (compareWith hc source target).unchanged k = true :=
          (keyIn_unchanged_iff hc source target k).mpr ⟨i0, hi0, hik0, t0, ht0, hcv⟩
        have hchanged : keyIn (compareWith hc source target).changed k = false := by
          apply bool_eq_false
          intro hcon
          obtain ⟨j, hj, hjk, t1, ht1, hv⟩ :=
            (keyIn_changed_iff hc source target k).mp hcon
          have ht01 : t1 = t0 := by rw [ht0] at ht1; exact (Option.some.inj ht1).symm
          have hji : j = i0 :=
            List.inj_on_of_nodup_map hs hj hi0 (by rw [hjk, hik0])
          rw [hji, ht01] at hv
          rw [hcv] at hv
          exact Bool.noConfusion hv
        simp [keyCount, hadded, hremoved, hchanged, hunchanged]
    · have hnone : lookupMap target k = none := (lookupMap_eq_none_iff target k).mpr hkt
      have hadded : keyIn (compareWith hc source target).added k = true :=
        (keyIn_added_iff hc source target k).mpr ⟨hksrc, hnone⟩
      have hremoved : keyIn (compareWith hc source target).removed k = false := by
        apply bool_eq_false
        intro hcon
        obtain ⟨hmem, -⟩ := (keyIn_removed_iff hc source target k).mp hcon
        exact hkt hmem
      have hchanged : keyIn (compareWith hc source target).changed k = false := by
        apply bool_eq_false
        intro hcon
        obtain ⟨j, hj, hjk, t1, ht1, -⟩ := (keyIn_changed_iff hc source target k).mp hcon
        rw [hnone] at ht1
        exact Option.noConfusion ht1
      have hunchanged : keyIn (compareWith hc source target).unchanged k = false := by
        apply bool_eq_false
        intro hcon
        obtain ⟨j, hj, hjk, t1, ht1, -⟩ := (keyIn_unchanged_iff hc source target k).mp hcon
        rw [hnone] at ht1
        exact Option.noConfusion ht1
      simp [keyCount, hadded, hremoved, hchanged, hunchanged]
  · have hktgt : k ∈ target.map (fun i => i.fullName) := hk.resolve_left hksrc
    have hnone : lookupMap source k = none := (lookupMap_eq_none_iff source k).mpr hksrc
    have hremoved : keyIn (compareWith hc source target).removed k = true :=
      (keyIn_removed_iff hc source target k).mpr ⟨hktgt, hnone⟩
    have hadded : keyIn (compareWith hc source target).added k = false := by
      apply bool_eq_false
      intro hcon
      obtain ⟨hmem, -⟩ := (keyIn_added_iff hc source target k).mp hcon
      exact hksrc hmem
    have hchanged : keyIn (compareWith hc source target).changed k = false := by
      apply bool_eq_false
      intro hcon
      obtain ⟨j, hj, hjk, -⟩ := (keyIn_changed_iff hc source target k).mp hcon
      exact hksrc (List.mem_map.mpr ⟨j, hj, hjk⟩)
    have hunchanged : keyIn (compareWith hc source target).unchanged k = false := by
      apply bool_eq_false
      intro hcon
      obtain ⟨j, hj, hjk, -⟩ := (keyIn_unchanged_iff hc source target k).mp hcon
      exact hksrc (List.mem_map.mpr ⟨j, hj, hjk⟩)
    simp [keyCount, hadded, hremoved, hchanged, hunchanged]

theorem mem_added_iff (hc : MetadataItem → MetadataItem → Bool)
    (source target : List MetadataItem) (a : MetadataItem) :
    a ∈ (compareWith hc source target).added
      ↔ a ∈ source ∧ lookupMap target a.fullName = none := by
  show a ∈ source.filter _ ↔ _
  rw [List.mem_filter, Option.isNone_iff_eq_none]

theorem mem_removed_iff (hc : MetadataItem → MetadataItem → Bool)
    (source target : List MetadataItem) (a : MetadataItem) :
    a ∈ (compareWith hc source target).removed
      ↔ a ∈ target ∧ lookupMap source a.fullName = none := by
  show a ∈ target.filter _ ↔ _
  rw [List.mem_filter, Option.isNone_iff_eq_none]

theorem mem_changed_iff (hc : MetadataItem → MetadataItem → Bool)
    (source target : List MetadataItem) (a : MetadataItem) :
    a ∈ (compareWith hc source target).changed
      ↔ a ∈ source ∧ ∃ t0, lookupMap target a.fullName = some t0 ∧ hc a t0 = true := by
  show a ∈ source.filter _ ↔ _
  rw [List.mem_filter]
  constructor
  · rintro ⟨ha, hp⟩
    cases h : lookupMap target a.fullName with
    | none => rw [h] at hp; exact absurd hp (by simp)
    | some t0 => rw [h] at hp; exact ⟨ha, t0, rfl, hp⟩
  · rintro ⟨ha, t0, hl, hv⟩
    exact ⟨ha, by rw [hl]; exact hv⟩

theorem mem_unchanged_iff (hc : MetadataItem → MetadataItem → Bool)
    (source target : List MetadataItem) (a : MetadataItem) :
    a ∈ (compareWith hc source target).unchanged
      ↔ a ∈ source ∧ ∃ t0, lookupMap target a.fullName = some t0 ∧ hc a t0 = false := by
  show a ∈ source.filter _ ↔ _
  rw [List.mem_filter]
  constructor
  · rintro ⟨ha, hp⟩
    cases h : lookupMap target a.fullName with
    | none => rw [h] at hp; exact absurd hp (by simp)
    | some t0 => rw [h] at hp; exact ⟨ha, t0, rfl, by simpa using hp⟩
  · rintro ⟨ha, t0, hl, hv⟩
    exact ⟨ha, by rw [hl]; simpa using hv⟩

/-- No artifact is a member of two of the four partitions, with no
key-uniqueness precondition needed. -/
theorem compareWith_disjoint (hc : MetadataItem → MetadataItem → Bool)
    (source target : List MetadataItem) (a : MetadataItem) :
    (a ∈ (compareWith hc source target).added →
      a ∉ (compareWith hc source target).removed
      ∧ a ∉ (compareWith hc source target).changed
      ∧ a ∉ (compareWith hc source target).unchanged)
    ∧ (a ∈ (compareWith hc source target).removed →
      a ∉ (compareWith hc source target).changed
      ∧ a ∉ (compareWith hc source target).unchanged)
    ∧ (a ∈ (compareWith hc source target).changed →
      a ∉ (compareWith hc source target).unchanged) := by
  refine ⟨?_, ?_, ?_⟩
  · intro ha
    obtain ⟨hasrc, hnone⟩ := (mem_added_iff hc source target a).mp ha
    refine ⟨?_, ?_, ?_⟩
    · intro hr
      obtain ⟨hatgt, -⟩ := (mem_removed_iff hc source target a).mp hr
      exact (lookupMap_eq_none_iff target a.fullName).mp hnone
        (List.mem_map.mpr ⟨a, hatgt, rfl⟩)
    · intro hcm
      obtain ⟨-, t0, hl, -⟩ := (mem_changed_iff hc source target a).mp hcm
      rw [hnone] at hl
      exact Option.noConfusion hl
    · intro hu
      obtain ⟨-, t0, hl, -⟩ := (mem_unchanged_iff hc source target a).mp hu
      rw [hnone] at hl
      exact Option.noConfusion hl
  · intro hr
    obtain ⟨hatgt, hnone⟩ := (mem_removed_iff hc source target a).mp hr
    constructor
    · intro hcm
      obtain ⟨hasrc, -⟩ := (mem_changed_iff hc source target a).mp hcm
      exact (lookupMap_eq_none_iff source a.fullName).mp hnone
        (List.mem_map.mpr ⟨a, hasrc, rfl⟩)
    · intro hu
      obtain ⟨hasrc, -⟩ := (mem_unchanged_iff hc source target a).mp hu
      exact (lookupMap_eq_none_iff source a.fullName).mp hnone
        (List.mem_map.mpr ⟨a, hasrc, rfl⟩)
  · intro hcm
    obtain ⟨-, t0, hl0, hv0⟩ := (mem_changed_iff hc source target a).mp hcm
    intro hu
    obtain ⟨-, t1, hl1, hv1⟩ := (mem_unchanged_iff hc source target a).mp hu
    rw [hl0] at hl1
    rw [Option.some.inj hl1] at hv0
    rw [hv0] at hv1
    exact Bool.noConfusion hv1

theorem compareWith_removed_length (hc : MetadataItem → MetadataItem → Bool)
    (source target : List MetadataItem)
    (ht : (target.map (fun i => i.fullName)).Nodup) :
    (compareWith hc source target).removed.length
      = ((target.map (fun i => i.fullName)).toFinset
          \ (source.map (fun i => i.fullName)).toFinset).card := by
  have e1 : (compareWith hc source target).removed.length
      = ((target.map (fun i => i.fullName)).filter
          (fun k => (lookupMap source k).isNone)).length := by
    show (target.filter _).length = _
    rw [← map_key_filter target (fun k => (lookupMap source k).isNone)]
    exact (List.length_map _ _).symm
  rw [e1]
  have hnodup : ((target.map (fun i => i.fullName)).filter
      (fun k => (lookupMap source k).isNone)).Nodup := ht.filter _
  rw [← List.toFinset_card_of_nodup hnodup, List.toFinset_filter]
  congr 1
  ext k
  simp only [Finset.mem_filter, Finset.mem_sdiff, List.mem_toFinset,
    Option.isNone_iff_eq_none, lookupMap_eq_none_iff]

/-- The four partition sizes sum to the cardinality of the union of the two
key sets, given key uniqueness on both sides. -/
theorem compareWith_total_length (hc : MetadataItem → MetadataItem → Bool)
    (source target : List MetadataItem)
    (hs : (source.map (fun i => i.fullName)).Nodup)
    (ht : (target.map (fun i => i.fullName)).Nodup) :
    (compareWith hc source target).added.length
      + (compareWith hc source target).removed.length
      + (compareWith hc source target).changed.length
      + (compareWith hc source target).unchanged.length
      = ((source.map (fun i => i.fullName)).toFinset
          ∪ (target.map (fun i => i.fullName)).toFinset).card := by
  have h1 := compareWith_source_length hc source target
  have h2 := compareWith_removed_length hc source target ht
  have h3 : ((source.map (fun i => i.fullName)).toFinset
        ∪ (target.map (fun i => i.fullName)).toFinset).card
      = (source.map (fun i => i.fullName)).toFinset.card
        + ((target.map (fun i => i.fullName)).toFinset
            \ (source.map (fun i => i.fullName)).toFinset).card := by
    rw [← Finset.union_sdiff_self_eq_union,
      Finset.card_union_of_disjoint Finset.disjoint_sdiff]
  have h4 : (source.map (fun i => i.fullName)).toFinset.card = source.length := by
    rw [List.toFinset_card_of_nodup hs, List.length_map]
  omega

/-! ## Helper lemmas about the dependency expander -/

theorem mem_insertItem_of_mem {a : MetadataItem} {s : List MetadataItem}
    (i : MetadataItem) (h : a ∈ s) : a ∈ insertItem s i := by
  unfold insertItem
  split
  · exact h
  · exact List.mem_append_left _ h

theorem mem_insertItem_self (s : List MetadataItem) (i : MetadataItem) :
    i ∈ insertItem s i := by
  unfold insertItem
  split
  · assumption
  · exact List.mem_append_right _ (List.mem_singleton.mpr rfl)

theorem mem_foldl_insertItem_of_mem {a : MetadataItem}
    (l : List MetadataItem) {s : List MetadataItem} (h : a ∈ s) :
    a ∈ l.foldl insertItem s := by
  induction l generalizing s with
  | nil => exact h
  | cons b t ih => exact ih (mem_insertItem_of_mem b h)

theorem mem_autoWireStep_of_mem (univ : MetadataComparison)
    (rules : List MetadataTypeConfig) {a : MetadataItem}
    {acc : List MetadataItem} (item : MetadataItem) (h : a ∈ acc) :
    a ∈ autoWireStep univ rules acc item :=
  mem_foldl_insertItem_of_mem _ (mem_insertItem_of_mem item h)

theorem mem_autoWireStep_self (univ : MetadataComparison)
    (rules : List MetadataTypeConfig) (acc : List MetadataItem)
    (item : MetadataItem) : item ∈ autoWireStep univ rules acc item :=
  mem_foldl_insertItem_of_mem _ (mem_insertItem_self acc item)

theorem mem_foldl_autoWireStep_of_mem (univ : MetadataComparison)
    (rules : List MetadataTypeConfig) {a : MetadataItem}
    (seeds : List MetadataItem) {acc : List MetadataItem} (h : a ∈ acc) :
    a ∈ seeds.foldl (autoWireStep univ rules) acc := by
  induction seeds generalizing acc with
  | nil => exact h
  | cons b t ih => exact ih (mem_autoWireStep_of_mem univ rules b h)

theorem mem_foldl_autoWireStep_of_mem_seeds (univ : MetadataComparison)
    (rules : List MetadataTypeConfig) {a : MetadataItem}
    {seeds : List MetadataItem} (h : a ∈ seeds) (acc : List MetadataItem) :
    a ∈ seeds.foldl (autoWireStep univ rules) acc := by
  induction seeds generalizing acc with
  | nil => exact absurd h (List.not_mem_nil a)
  | cons b t ih =>
    rcases List.mem_cons.mp h with hab | hat
    · subst hab
      exact mem_foldl_autoWireStep_of_mem univ rules t
        (mem_autoWireStep_self univ rules acc a)
    · exact ih hat _


/-! ## Helper lemmas about the manifest builder -/

theorem lookupGroup_append (m n : List (String × List String)) (t : String) :
    lookupGroup (m ++ n) t
      = if m.any (fun p => p.1 == t) then lookupGroup m t else lookupGroup n t := by
  induction m with
  | nil => simp [lookupGroup]
  | cons p m ih =>
    rw [List.cons_append]
    by_cases hp : p.1 = t
    · have hb : (p.1 == t) = true := by simp [hp]
      simp [lookupGroup, List.any_cons, hb, hp]
    · have hb : (p.1 == t) = false := by simp [hp]
      simp only [lookupGroup, List.any_cons, hb, Bool.false_or]
      simp [lookupGroup, hp, ih]

theorem lookupGroup_eq_nil_of_not_any (m : List (String × List String)) (t : String)
    (h : m.any (fun p => p.1 == t) = false) : lookupGroup m t = [] := by
  induction m with
  | nil => rfl
  | cons p m ih =>
    simp only [List.any_cons, Bool.or_eq_false_iff] at h
    have hp : ¬ p.1 = t := by simpa using h.1
    simp only [lookupGroup]
    rw [if_neg hp]
    exact ih h.2

theorem lookupGroup_map_upd_ne (m : List (String × List String))
    (ty nm t : String) (h : ¬ ty = t) :
    lookupGroup (m.map (fun p => if p.1 == ty then (p.1, p.2 ++ [nm]) else p)) t
      = lookupGroup m t := by
  induction m with
  | nil => rfl
  | cons p m ih =>
    rw [List.map_cons]
    by_cases hp : p.1 = ty
    · have hb : (p.1 == ty) = true := by simp [hp]
      have hpt : ¬ p.1 = t := by rw [hp]; exact h
      rw [if_pos hb]
      simp only [lookupGroup]
      rw [if_neg hpt, if_neg hpt]
      exact ih
    · have hb : ¬ (p.1 == ty) = true := by simp [hp]
      rw [if_neg hb]
      simp only [lookupGroup]
      by_cases hpt : p.1 = t
      · rw [if_pos hpt, if_pos hpt]
      · rw [if_neg hpt, if_neg hpt]
        exact ih

theorem lookupGroup_map_upd_eq (m : List (String × List String))
    (ty nm : String) (hany : m.any (fun p => p.1 == ty) = true) :
    lookupGroup (m.map (fun p => if p.1 == ty then (p.1, p.2 ++ [nm]) else p)) ty
      = lookupGroup m ty ++ [nm] := by
  induction m with
  | nil => exact absurd hany (by simp)
  | cons p m ih =>
    rw [List.map_cons]
    by_cases hp : p.1 = ty
    · have hb : (p.1 == ty) = true := by simp [hp]
      rw [if_pos hb]
      simp only [lookupGroup]
      rw [if_pos hp, if_pos hp]
    · have hb : ¬ (p.1 == ty) = true := by simp [hp]
      have hany' : m.any (fun p => p.1 == ty) = true := by
        rcases (List.any_eq_true).mp hany with ⟨q, hq, hqty⟩
        rcases List.mem_cons.mp hq with hqp | hqm
        · exact absurd (by rw [← hqp]; exact hqty) hb
        · exact (List.any_eq_true).mpr ⟨q, hqm, hqty⟩
      rw [if_neg hb]
      simp only [lookupGroup]
      rw [if_neg hp, if_neg hp]
      exact ih hany'

theorem lookupGroup_groupStep (m : List (String × List String))
    (item : MetadataItem) (t : String) :
    lookupGroup (groupStep m item) t
      = if item.type = t then lookupGroup m t ++ [item.name] else lookupGroup m t := by
  unfold groupStep
  by_cases hany : m.any (fun p => p.1 == item.type) = true
  · rw [if_pos hany]
    by_cases hty : item.type = t
    · subst hty
      rw [if_pos rfl]
      exact lookupGroup_map_upd_eq m item.type item.name hany
    · rw [if_neg hty]
      exact lookupGroup_map_upd_ne m item.type item.name t hty
  · have hany' : m.any (fun p => p.1 == item.type) = false := bool_eq_false hany
    rw [if_neg hany]
    rw [lookupGroup_append]
    by_cases hty : item.type = t
    · subst hty
      rw [if_neg (by rw [hany']; exact Bool.noConfusion), if_pos rfl]
      rw [lookupGroup_eq_nil_of_not_any m item.type hany']
      simp [lookupGroup]
    · by_cases hmt : m.any (fun p => p.1 == t) = true
      · rw [if_pos hmt, if_neg hty]
      · rw [if_neg hmt, if_neg hty]
        rw [lookupGroup_eq_nil_of_not_any m t (bool_eq_false hmt)]
        simp only [lookupGroup]
        rw [if_neg hty]

theorem lookupGroup_foldl (items : List MetadataItem) (t : String) :
    ∀ m : List (String × List String),
      lookupGroup (items.foldl groupStep m) t
        = lookupGroup m t ++ (items.filter (fun i => i.type == t)).map (fun i => i.name) := by
  induction items with
  | nil => intro m; simp
  | cons i rest ih =>
    intro m
    rw [List.foldl_cons, ih (groupStep m i), lookupGroup_groupStep]
    by_cases hty : i.type = t
    · have hb : (i.type == t) = true := by simp [hty]
      rw [if_pos hty]
      simp only [List.filter_cons, hb, if_true, List.map_cons]
      rw [List.append_assoc]
      rfl
    · have hb : (i.type == t) = false := by simp [hty]
      rw [if_neg hty]
      rw [List.filter_cons, hb]
      simp

theorem lookupGroup_groupTypes (items : List MetadataItem) (t : String) :
    lookupGroup (groupTypes items) t
      = (items.filter (fun i => i.type == t)).map (fun i => i.name) := by
  unfold groupTypes
  rw [lookupGroup_foldl]
  rfl

/-! ## Concrete fixtures used by counterexamples and witnesses -/

/-- A `CustomField` artifact whose `fieldParentObject` rule points at
`CustomObject "Account"`. -/
def phoneField : MetadataItem :=
  { type := "CustomField", name := "Account.Phone", fullName := "CustomField/Account.Phone" }

/-- The parent `CustomObject`, itself carrying the `objectFields` rule. -/
def accountObject : MetadataItem :=
  { type := "CustomObject", name := "Account", fullName := "CustomObject/Account" }

/-- A second field of the same object, reachable only through the parent's
`objectFields` rule. -/
def faxField : MetadataItem :=
  { type := "CustomField", name := "Account.Fax", fullName := "CustomField/Account.Fax" }

/-- A comparison-result universe containing the three artifacts above. -/
def wireUniverse : MetadataComparison :=
  { added := [phoneField, accountObject, faxField]
    removed := [], changed := [], unchanged := [] }

/-- An artifact whose type has a `TypeRule` with a `null` auto-wire rule. -/
def profileItem : MetadataItem :=
  { type := "Profile", name := "Admin", fullName := "Profile/Admin" }

/-- Two distinct artifacts sharing one key. -/
def dupFooA : MetadataItem :=
  { type := "ApexClass", name := "Foo", fullName := "ApexClass/Foo",
    sourceValue := some "class A" }

/-- Two distinct artifacts sharing one key (second copy, different content). -/
def dupFooB : MetadataItem :=
  { type := "ApexClass", name := "Foo", fullName := "ApexClass/Foo",
    sourceValue := some "class B" }

/-- Manifest fixture: `ApexClass` member `Foo`. -/
def apexFoo : MetadataItem :=
  { type := "ApexClass", name := "Foo", fullName := "ApexClass/Foo" }

/-- Manifest fixture: `ApexClass` member `Bar`. -/
def apexBar : MetadataItem :=
  { type := "ApexClass", name := "Bar", fullName := "ApexClass/Bar" }

/-- Service-reconciler fixture: source-side item. Its content fields agree
with `svcTargetItem`; only `lastModifiedDate` differs. -/
def svcSourceItem : MetadataItem :=
  { type := "ApexClass", name := "Foo", fullName := "ApexClass/Foo",
    lastModifiedDate := some "2024-01-01T00:00:00Z",
    sourceValue := some "public class Foo", targetValue := some "public class Foo" }

/-- Service-reconciler fixture: target-side item with identical content. -/
def svcTargetItem : MetadataItem :=
  { type := "ApexClass", name := "Foo", fullName := "ApexClass/Foo",
    lastModifiedDate := some "2024-01-02T00:00:00Z",
    sourceValue := some "public class Foo", targetValue := some "public class Foo" }

/-- Reconciler witness fixture: source side (shares `ApexClass/Foo` with the
target at different content, plus a private key). -/
def wSource : List MetadataItem :=
  [ { type := "ApexClass", name := "Foo", fullName := "ApexClass/Foo",
      sourceValue := some "X" }
  , { type := "CustomObject", name := "Acc", fullName := "CustomObject/Acc",
      sourceValue := some "A" } ]

/-- Reconciler witness fixture: target side. -/
def wTarget : List MetadataItem :=
  [ { type := "ApexClass", name := "Foo", fullName := "ApexClass/Foo",
      sourceValue := some "Y" }
  , { type := "Layout", name := "L", fullName := "Layout/L",
      sourceValue := some "B" } ]

/-! ## Claim C1 -/

/-- C1 counterexample: `compareMetadata` contains no duplicate-key check at
all. On a left collection holding two distinct artifacts with the same key
it returns a normal `MetadataComparison` (both duplicates classified as
added), rather than failing with any `DuplicateKeyError`. -/
theorem compareMetadata_no_duplicate_key_error :
    dupFooA.fullName = dupFooB.fullName
    ∧ dupFooA ≠ dupFooB
    ∧ OrgCompare.compareMetadata [dupFooA, dupFooB] []
        = { added := [dupFooA, dupFooB], removed := [], changed := [], unchanged := [] } := by
  refine ⟨rfl, by decide, by decide⟩

/-- C1 (amended): `compareMetadata` never fails: for every pair of input
collections, duplicate keys included, it returns a normal result in which
every source item is classified into exactly one of added/changed/unchanged
(so the three source-side partition sizes always sum to the source length);
duplicates are processed like any other item, not deduplicated away. -/
theorem compareMetadata_total_no_duplicate_check
    (source target : List MetadataItem) :
    (OrgCompare.compareMetadata source target).added.length
      + (OrgCompare.compareMetadata source target).changed.length
      + (OrgCompare.compareMetadata source target).unchanged.length
      = source.length :=
  compareWith_source_length OrgCompare.hasChanges source target

/-! ## Claim C2 -/

/-- C2 counterexample: swapping two items of different types is a
permutation that changes the serialized manifest byte-for-byte, because
`generatePackageXml` emits `types` blocks in first-seen order. -/
theorem generatePackageXml_not_permutation_invariant :
    [apexFoo, accountObject].Perm [accountObject, apexFoo]
    ∧ generatePackageXml [apexFoo, accountObject]
        ≠ generatePackageXml [accountObject, apexFoo] := by
  refine ⟨by decide, by decide⟩

/-- C2 (amended): `generatePackageXml` is a function of the insertion-order
grouping only: two inputs — in particular two permutations of the same
items — serialize identically exactly when they build the same grouped map
(same first-seen order of types, same name order within each type); general
permutations may change the bytes. -/
theorem generatePackageXml_respects_grouping (l1 l2 : List MetadataItem)
    (_hperm : l1.Perm l2) (hg : groupTypes l1 = groupTypes l2) :
    generatePackageXml l1 = generatePackageXml l2 := by
  unfold generatePackageXml
  rw [hg]

/-- C2 witness: a genuine reordering (the `CustomObject` moved past an
`ApexClass`) that happens to preserve the grouping and therefore the
serialized bytes. -/
theorem generatePackageXml_respects_grouping_witness :
    ([apexFoo, accountObject, apexBar].Perm [apexFoo, apexBar, accountObject]
      ∧ groupTypes [apexFoo, accountObject, apexBar]
          = groupTypes [apexFoo, apexBar, accountObject])
    ∧ generatePackageXml [apexFoo, accountObject, apexBar]
        = generatePackageXml [apexFoo, apexBar, accountObject] :=
  ⟨⟨by decide, by decide⟩,
    generatePackageXml_respects_grouping _ _ (by decide) (by decide)⟩

/-! ## Claim C3 -/

/-- C3 counterexample: the expansion is a single pass over the seed items,
not a closure. Expanding the seed `{Account.Phone}` pulls in the parent
`CustomObject Account` but stops there; re-running the expansion on that
result lets the parent's own `objectFields` rule fire and pulls in
`Account.Fax`, so `expand (expand S) ≠ expand S`. -/
theorem autoWireDependencies_not_idempotent :
    autoWireDependencies [phoneField] wireUniverse METADATA_TYPES
        = [phoneField, accountObject]
    ∧ autoWireDependencies
          (autoWireDependencies [phoneField] wireUniverse METADATA_TYPES)
          wireUniverse METADATA_TYPES
        = [phoneField, accountObject, faxField]
    ∧ autoWireDependencies
          (autoWireDependencies [phoneField] wireUniverse METADATA_TYPES)
          wireUniverse METADATA_TYPES
        ≠ autoWireDependencies [phoneField] wireUniverse METADATA_TYPES := by
  refine ⟨by decide, by decide, by decide⟩

/-- C3 (amended): the superset half of the claim holds — every seed item is
in the expansion result — but the expansion is one pass over the seeds:
newly discovered artifacts are not themselves expansion sources, and
re-running the expansion on its own result can add further artifacts. -/
theorem autoWireDependencies_superset (seeds : List MetadataItem)
    (univ : MetadataComparison) (rules : List MetadataTypeConfig)
    (a : MetadataItem) (h : a ∈ seeds) :
    a ∈ autoWireDependencies seeds univ rules :=
  mem_foldl_autoWireStep_of_mem_seeds univ rules h []

/-- C3 witness: the seed item survives an actual expansion. -/
theorem autoWireDependencies_superset_witness :
    phoneField ∈ [phoneField]
    ∧ phoneField ∈ autoWireDependencies [phoneField] wireUniverse METADATA_TYPES :=
  ⟨by decide, autoWireDependencies_superset [phoneField] wireUniverse METADATA_TYPES
    phoneField (by decide)⟩

/-! ## Claim C4 -/

/-- C4: the claim states that a key present on both sides is classified
`changed` exactly when the two content values differ, and that the
classification depends only on content. The component implementation
(`OrgCompare.hasChanges`) does compare content, but the service
implementation (`MetadataService.hasChanges`) compares `lastModifiedDate` —
against its own comment that a real implementation would compare actual
content. At the concrete input below both contents agree and only the
modification dates differ, yet the service classifies the pair as changed
while the component classifies it as unchanged. -/
theorem serviceHasChanges_ignores_content :
    svcSourceItem.sourceValue = svcTargetItem.sourceValue
    ∧ svcSourceItem.targetValue = svcTargetItem.targetValue
    ∧ MetadataService.hasChanges svcSourceItem svcTargetItem = true
    ∧ (MetadataService.compareMetadata [svcSourceItem] [svcTargetItem]).changed
        = [svcSourceItem]
    ∧ (MetadataService.compareMetadata [svcSourceItem] [svcTargetItem]).unchanged = []
    ∧ OrgCompare.hasChanges svcSourceItem svcTargetItem = false
    ∧ (OrgCompare.compareMetadata [svcSourceItem] [svcTargetItem]).unchanged
        = [svcSourceItem] := by
  refine ⟨rfl, rfl, by decide, by decide, by decide, by decide, by decide⟩

/-! ## Claim C6 -/

/-- C6 counterexample: two identical `(type, name)` entries are not
collapsed — the grouped map records the name twice and the serialized
manifest emits two identical `members` lines. -/
theorem generatePackageXml_duplicate_members :
    groupTypes [apexFoo, apexFoo] = [("ApexClass", ["Foo", "Foo"])]
    ∧ (splitLines (generatePackageXml [apexFoo, apexFoo])).count
        "    <members>Foo</members>" = 2 := by
  refine ⟨by decide, by decide⟩

/-- C6 (amended): the member list recorded for each type is the list of
names of all input items of that type, in input order, duplicates
preserved; in particular an item listed twice yields two members entries. -/
theorem generatePackageXml_members_in_input_order :
    (∀ (items : List MetadataItem) (t : String),
      lookupGroup (groupTypes items) t
        = (items.filter (fun i => i.type == t)).map (fun i => i.name))
    ∧ ∀ item : MetadataItem,
        lookupGroup (groupTypes [item, item]) item.type = [item.name, item.name] := by
  have hmain : ∀ (items : List MetadataItem) (t : String),
      lookupGroup (groupTypes items) t
        = (items.filter (fun i => i.type == t)).map (fun i => i.name) := by
    intro items t
    unfold groupTypes
    rw [lookupGroup_foldl]
    rfl
  refine ⟨hmain, fun item => ?_⟩
  rw [hmain]
  have hb : (item.type == item.type) = true := by simp
  simp [List.filter_cons, hb]

/-! ## Claim C8 -/

/-- C8: the line diff is total — it always returns exactly
`max(lineCount(a), lineCount(b))` entries, lines being obtained by
splitting on newline and missing lines padded with the empty string. -/
theorem generateDiffContent_length (a b : String) :
    (OrgCompare.generateDiffContent (some a) (some b)).length
      = max (splitLines a).length (splitLines b).length := by
  simp [OrgCompare.generateDiffContent]

/-! ## Claim C10 -/

/-- C10: on the empty item list `generatePackageXml` returns exactly the
fixed envelope (XML declaration, `Package` open tag with the metadata
namespace, the `version 58.0` line, the closing tag) with zero `types`
blocks, and every output begins and ends with that same envelope. -/
theorem generatePackageXml_envelope :
    generatePackageXml []
      = "<?xml version=\"1.0\" encoding=\"UTF-8\"?>\n<Package xmlns=\"http://soap.sforce.com/2006/04/metadata\">\n  <version>58.0</version>\n</Package>"
    ∧ groupTypes [] = []
    ∧ ∀ items : List MetadataItem, ∃ body : String,
        generatePackageXml items
          = "<?xml version=\"1.0\" encoding=\"UTF-8\"?>\n<Package xmlns=\"http://soap.sforce.com/2006/04/metadata\">\n"
            ++ body ++ "  <version>58.0</version>\n</Package>" := by
  refine ⟨by decide, rfl, fun items => ⟨renderTypes (groupTypes items), rfl⟩⟩

/-! ## Claim C9 -/

/-- C9: a seed artifact whose type resolves to no `TypeRule` entry, or to an
entry whose auto-wire rule is `null`, is a no-op for expansion: the model is
total (nothing fails), the item's `switch` contributes no candidates, its
processing step only inserts the item itself, and the item still appears in
the expansion result. -/
theorem autoWire_missing_rule_noop (univ : MetadataComparison)
    (rules : List MetadataTypeConfig) (acc seeds : List MetadataItem)
    (item : MetadataItem) (h : lookupAutoWire rules item.type = none)
    (hmem : item ∈ seeds) :
    autoWireCandidates univ rules item = []
    ∧ autoWireStep univ rules acc item = insertItem acc item
    ∧ item ∈ autoWireDependencies seeds univ rules := by
  have hcand : autoWireCandidates univ rules item = [] := by
    unfold autoWireCandidates
    rw [h]
  refine ⟨hcand, ?_, mem_foldl_autoWireStep_of_mem_seeds univ rules hmem []⟩
  unfold autoWireStep
  rw [hcand]
  rfl

/-- C9 witness: `Profile` has a `TypeRule` entry with a `null` auto-wire
rule; expanding a seed `Profile` item only keeps the item itself. -/
theorem autoWire_missing_rule_noop_witness :
    (lookupAutoWire METADATA_TYPES profileItem.type = none
      ∧ profileItem ∈ [profileItem])
    ∧ (autoWireCandidates wireUniverse METADATA_TYPES profileItem = []
      ∧ autoWireStep wireUniverse METADATA_TYPES [] profileItem = insertItem [] profileItem
      ∧ profileItem ∈ autoWireDependencies [profileItem] wireUniverse METADATA_TYPES) :=
  ⟨⟨by decide, by decide⟩,
    autoWire_missing_rule_noop wireUniverse METADATA_TYPES [] [profileItem]
      profileItem (by decide) (by decide)⟩

/-! ## Claim C5 -/

theorem diffLineType_cases (s t : String) :
    (s = t → OrgCompare.diffLineType s t = .unchanged)
    ∧ (s ≠ "" → t = "" → OrgCompare.diffLineType s t = .added)
    ∧ (s = "" → t ≠ "" → OrgCompare.diffLineType s t = .removed)
    ∧ (s ≠ "" → t ≠ "" → s ≠ t → OrgCompare.diffLineType s t = .changed) := by
  refine ⟨?_, ?_, ?_, ?_⟩
  · intro h
    simp [OrgCompare.diffLineType, h]
  · intro hs ht
    subst ht
    simp [OrgCompare.diffLineType, strTruthy, hs]
  · intro hs ht
    subst hs
    simp [OrgCompare.diffLineType, strTruthy, ht, Ne.symm ht]
  · intro hs ht hne
    simp [OrgCompare.diffLineType, strTruthy, hs, ht, hne]

theorem generateDiffContent_getD (sv tv : Option String) (i : Nat)
    (h : i < (OrgCompare.generateDiffContent sv tv).length) :
    (OrgCompare.generateDiffContent sv tv).getD i ⟨0, "", "", DiffType.unchanged⟩
      = { lineNumber := i + 1
          sourceContent := (splitLines (sv.getD "")).getD i ""
          targetContent := (splitLines (tv.getD "")).getD i ""
          type := OrgCompare.diffLineType ((splitLines (sv.getD "")).getD i "")
            ((splitLines (tv.getD "")).getD i "") } := by
  rw [List.getD_eq_getElem _ _ h]
  simp [OrgCompare.generateDiffContent]

/-- C5 counterexample: at index 0 of `diffLines "a" ""` the left line is the
non-empty `"a"` and the right line is empty, so the claim (matching the
spec) requires `removed`; the component implementation classifies it as
`added` (its orientation is the mirror image of the claim, and of the
service copy). -/
theorem generateDiffContent_orientation :
    splitLines "a" = ["a"] ∧ splitLines "" = [""]
    ∧ (OrgCompare.generateDiffContent (some "a") (some "")).map (fun d => d.type)
        = [DiffType.added]
    ∧ DiffType.added ≠ DiffType.removed := by
  refine ⟨by decide, by decide, by decide, by decide⟩

/-- C5 (amended): the per-index classification of the component's
`generateDiffContent` is: `unchanged` when the two padded lines are equal;
`added` when the left line is non-empty and the right line empty; `removed`
when the left line is empty and the right line non-empty; `changed` when
both are non-empty and different — i.e. the claim with the added/removed
orientation swapped. -/
theorem generateDiffContent_classification (sv tv : Option String) (i : Nat)
    (h : i < (OrgCompare.generateDiffContent sv tv).length) :
    ((splitLines (sv.getD "")).getD i "" = (splitLines (tv.getD "")).getD i "" →
      ((OrgCompare.generateDiffContent sv tv).getD i ⟨0, "", "", DiffType.unchanged⟩).type
        = DiffType.unchanged)
    ∧ ((splitLines (sv.getD "")).getD i "" ≠ "" →
      (splitLines (tv.getD "")).getD i "" = "" →
      ((OrgCompare.generateDiffContent sv tv).getD i ⟨0, "", "", DiffType.unchanged⟩).type
        = DiffType.added)
    ∧ ((splitLines (sv.getD "")).getD i "" = "" →
      (splitLines (tv.getD "")).getD i "" ≠ "" →
      ((OrgCompare.generateDiffContent sv tv).getD i ⟨0, "", "", DiffType.unchanged⟩).type
        = DiffType.removed)
    ∧ ((splitLines (sv.getD "")).getD i "" ≠ "" →
      (splitLines (tv.getD "")).getD i "" ≠ "" →
      (splitLines (sv.getD "")).getD i "" ≠ (splitLines (tv.getD "")).getD i "" →
      ((OrgCompare.generateDiffContent sv tv).getD i ⟨0, "", "", DiffType.unchanged⟩).type
        = DiffType.changed) := by
  rw [generateDiffContent_getD sv tv i h]
  exact diffLineType_cases _ _

/-- C5 witness: the amended classification evaluated at `diffLines "a" ""`,
index 0 (left line non-empty, right line empty, classified added). -/
theorem generateDiffContent_classification_witness :
    0 < (OrgCompare.generateDiffContent (some "a") (some "")).length
    ∧ (((splitLines ((some "a").getD "")).getD 0 ""
          = (splitLines ((some "").getD "")).getD 0 "" →
        ((OrgCompare.generateDiffContent (some "a") (some "")).getD 0
            ⟨0, "", "", DiffType.unchanged⟩).type = DiffType.unchanged)
      ∧ ((splitLines ((some "a").getD "")).getD 0 "" ≠ "" →
        (splitLines ((some "").getD "")).getD 0 "" = "" →
        ((OrgCompare.generateDiffContent (some "a") (some "")).getD 0
            ⟨0, "", "", DiffType.unchanged⟩).type = DiffType.added)
      ∧ ((splitLines ((some "a").getD "")).getD 0 "" = "" →
        (splitLines ((some "").getD "")).getD 0 "" ≠ "" →
        ((OrgCompare.generateDiffContent (some "a") (some "")).getD 0
            ⟨0, "", "", DiffType.unchanged⟩).type = DiffType.removed)
      ∧ ((splitLines ((some "a").getD "")).getD 0 "" ≠ "" →
        (splitLines ((some "").getD "")).getD 0 "" ≠ "" →
        (splitLines ((some "a").getD "")).getD 0 ""
          ≠ (splitLines ((some "").getD "")).getD 0 "" →
        ((OrgCompare.generateDiffContent (some "a") (some "")).getD 0
            ⟨0, "", "", DiffType.unchanged⟩).type = DiffType.changed)) :=
  ⟨by decide, generateDiffContent_classification (some "a") (some "") 0 (by decide)⟩

/-! ## Claim C7 -/

/-- C7: when each side's keys are unique, the four partitions returned by
`compareMetadata` are exhaustive and disjoint — every key present in either
input occurs in exactly one partition, no artifact is a member of two
partitions, and the partition sizes sum to the cardinality of the union of
the two key sets. -/
theorem compareMetadata_partition (source target : List MetadataItem)
    (hs : (source.map (fun i => i.fullName)).Nodup)
    (ht : (target.map (fun i => i.fullName)).Nodup) :
    (∀ k : String,
      k ∈ source.map (fun i => i.fullName) ∨ k ∈ target.map (fun i => i.fullName) →
        keyCount (OrgCompare.compareMetadata source target) k = 1)
    ∧ (∀ a : MetadataItem,
      (a ∈ (OrgCompare.compareMetadata source target).added →
        a ∉ (OrgCompare.compareMetadata source target).removed
        ∧ a ∉ (OrgCompare.compareMetadata source target).changed
        ∧ a ∉ (OrgCompare.compareMetadata source target).unchanged)
      ∧ (a ∈ (OrgCompare.compareMetadata source target).removed →
        a ∉ (OrgCompare.compareMetadata source target).changed
        ∧ a ∉ (OrgCompare.compareMetadata source target).unchanged)
      ∧ (a ∈ (OrgCompare.compareMetadata source target).changed →
        a ∉ (OrgCompare.compareMetadata source target).unchanged))
    ∧ (OrgCompare.compareMetadata source target).added.length
        + (OrgCompare.compareMetadata source target).removed.length
        + (OrgCompare.compareMetadata source target).changed.length
        + (OrgCompare.compareMetadata source target).unchanged.length
        = ((source.map (fun i => i.fullName)).toFinset
            ∪ (target.map (fun i => i.fullName)).toFinset).card :=
  ⟨fun k hk => compareWith_keyCount OrgCompare.hasChanges source target hs k hk,
    fun a => compareWith_disjoint OrgCompare.hasChanges source target a,
    compareWith_total_length OrgCompare.hasChanges source target hs ht⟩

/-- C7 witness: a two-versus-two comparison with unique keys per side
(`wSource`/`wTarget` share the key `ApexClass/Foo` with different content;
each side also has a private key), at which the partition invariants are
obtained from the theorem. -/
theorem compareMetadata_partition_witness :
    ((wSource.map (fun i => i.fullName)).Nodup
      ∧ (wTarget.map (fun i => i.fullName)).Nodup)
    ∧ ((∀ k : String,
      k ∈ wSource.map (fun i => i.fullName) ∨ k ∈ wTarget.map (fun i => i.fullName) →
        keyCount (OrgCompare.compareMetadata wSource wTarget) k = 1)
    ∧ (∀ a : MetadataItem,
      (a ∈ (OrgCompare.compareMetadata wSource wTarget).added →
        a ∉ (OrgCompare.compareMetadata wSource wTarget).removed
        ∧ a ∉ (OrgCompare.compareMetadata wSource wTarget).changed
        ∧ a ∉ (OrgCompare.compareMetadata wSource wTarget).unchanged)
      ∧ (a ∈ (OrgCompare.compareMetadata wSource wTarget).removed →
        a ∉ (OrgCompare.compareMetadata wSource wTarget).changed
        ∧ a ∉ (OrgCompare.compareMetadata wSource wTarget).unchanged)
      ∧ (a ∈ (OrgCompare.compareMetadata wSource wTarget).changed →
        a ∉ (OrgCompare.compareMetadata wSource wTarget).unchanged))
    ∧ (OrgCompare.compareMetadata wSource wTarget).added.length
        + (OrgCompare.compareMetadata wSource wTarget).removed.length
        + (OrgCompare.compareMetadata wSource wTarget).changed.length
        + (OrgCompare.compareMetadata wSource wTarget).unchanged.length
        = ((wSource.map (fun i => i.fullName)).toFinset
            ∪ (wTarget.map (fun i => i.fullName)).toFinset).card) :=
  ⟨⟨by decide, by decide⟩,
    compareMetadata_partition wSource wTarget (by decide) (by decide)⟩
